import Mathlib

set_option maxRecDepth 4000

/-!
Shallow embedding of the repocraft-server-go request-to-process bridging
layer: the Go `service`, `httpsmart` and `ssh` packages, together with the
parts of the Go standard library (`strings`, `path/filepath`) these
packages rely on, modelled for a Unix platform (path separator `/`,
`filepath.FromSlash`/`ToSlash` are the identity).
-/

deriving instance DecidableEq for Except

/-! ## Go standard-library string helpers -/

/-- Models Go `unicode.IsSpace` (the White_Space code points). -/
def isGoSpace (c : Char) : Bool :=
  let n := c.toNat
  n == 9 || n == 10 || n == 11 || n == 12 || n == 13 || n == 32 ||
  n == 133 || n == 160 || n == 5760 || (8192 ≤ n && n ≤ 8202) ||
  n == 8232 || n == 8233 || n == 8239 || n == 8287 || n == 12288

/-- Models Go `strings.TrimSpace`: drop leading and trailing whitespace. -/
def goTrimSpace (s : String) : String :=
  String.mk (((s.data.dropWhile isGoSpace).reverse.dropWhile isGoSpace).reverse)

/-- Models Go `strings.Trim`: drop leading and trailing characters that are
in the cutset. -/
def goTrimCutset (s : String) (cutset : List Char) : String :=
  String.mk (((s.data.dropWhile (fun c => cutset.contains c)).reverse.dropWhile
    (fun c => cutset.contains c)).reverse)

/-- Models Go `strings.HasPrefix`. -/
def goHasPre (s pre : String) : Bool :=
  pre.data.isPrefixOf s.data

/-- Models Go `strings.TrimPrefix`. -/
def dropPre (s pre : String) : String :=
  if pre.data.isPrefixOf s.data then String.mk (s.data.drop pre.data.length) else s

/-- Models Go `strings.TrimSuffix`. -/
def dropSuf (s suf : String) : String :=
  if suf.data.isSuffixOf s.data then
    String.mk (s.data.take (s.data.length - suf.data.length))
  else s

/-- Split a character list at every character satisfying `p`
(the separators are consumed; empty pieces are kept). -/
def splitIfAux (p : Char → Bool) : List Char → List (List Char)
  | [] => [[]]
  | a :: rest =>
    match splitIfAux p rest with
    | [] => [[a]]
    | h :: t => if p a then [] :: h :: t else (a :: h) :: t

/-- Models Go `strings.Fields`: split around runs of whitespace. -/
def goFields (s : String) : List String :=
  ((splitIfAux isGoSpace s.data).filter (fun t => t ≠ [])).map String.mk

/-- Does the character list contain `c`?  (Go `strings.ContainsRune`.) -/
def containsChar (c : Char) : List Char → Bool
  | [] => false
  | a :: rest => a == c || containsChar c rest

/-- Models Go `strings.Contains` on the underlying character lists. -/
def containsSub (sub : List Char) : List Char → Bool
  | [] => sub.isEmpty
  | a :: rest => sub.isPrefixOf (a :: rest) || containsSub sub rest

/-- Models Go `strings.Contains`. -/
def goContainsSub (s sub : String) : Bool :=
  containsSub sub.data s.data

/-- Models Go `strings.ContainsRune`. -/
def goContainsChar (s : String) (c : Char) : Bool :=
  containsChar c s.data

/-- Cut a character list at the first occurrence of `c`
(Go `strings.Cut` with a one-character separator): returns the parts
before and after the first `c`, or `none` when `c` does not occur. -/
def cutCharList (c : Char) : List Char → Option (List Char × List Char)
  | [] => none
  | a :: rest =>
    if a = c then some ([], rest)
    else
      match cutCharList c rest with
      | none => none
      | some (l, r) => some (a :: l, r)

/-! ## Go `path/filepath` on Unix -/

/-- Split a character list on a separator character, keeping empty pieces
(Go `strings.Split` with a one-character separator). -/
def splitOnChar (c : Char) (l : List Char) : List (List Char) :=
  splitIfAux (fun a => a == c) l

/-- Join path segments with a separator character. -/
def intercalateChar (c : Char) : List (List Char) → List Char
  | [] => []
  | [s] => s
  | s :: rest => s ++ c :: intercalateChar c rest

/-- The segment-stack core of Go `filepath.Clean` on Unix: process the
`..` segments of a (already `.`/empty filtered) segment list.  A `..` pops
the previous segment; at the top of a rooted path it is dropped, at the
top of a relative path it is kept. -/
def cleanSegs (rooted : Bool) : List (List Char) → List (List Char) → List (List Char)
  | stack, [] => stack.reverse
  | stack, seg :: rest =>
    if seg = ['.', '.'] then
      match stack with
      | top :: stk =>
        if top = ['.', '.'] then cleanSegs rooted (seg :: top :: stk) rest
        else cleanSegs rooted stk rest
      | [] => if rooted then cleanSegs rooted [] rest else cleanSegs rooted [seg] rest
    else cleanSegs rooted (seg :: stack) rest

/-- Models Go `filepath.Clean` for a Unix separator: returns the shortest
path name equivalent to the input by lexical processing (drop `.` and
empty segments, resolve `..` against preceding segments, keep leading
`..` on relative paths, never escape the root on rooted paths); the empty
path cleans to `.`. -/
def filepathClean (p : String) : String :=
  if p = "" then "."
  else
    let rooted := goHasPre p "/"
    let segs := (splitOnChar '/' p.data).filter (fun t => t ≠ [] ∧ t ≠ ['.'])
    let stack := cleanSegs rooted [] segs
    if rooted then String.mk ('/' :: intercalateChar '/' stack)
    else if stack = [] then "." else String.mk (intercalateChar '/' stack)

/-- Models Go `filepath.FromSlash`, the identity on Unix. -/
def filepathFromSlash (s : String) : String := s

/-- Models Go `filepath.ToSlash`, the identity on Unix. -/
def filepathToSlash (s : String) : String := s

/-- Models Go `filepath.Join` for two elements: join the non-empty
elements with the separator and clean the result. -/
def filepathJoin (a b : String) : String :=
  if a = "" ∧ b = "" then ""
  else if a = "" then filepathClean b
  else if b = "" then filepathClean a
  else filepathClean (a ++ "/" ++ b)

/-! ## The `service` package -/

namespace service

/-- Models Go `type Service string`; the two well-known values. -/
def ServiceUploadPack : String := "git-upload-pack"

/-- The receive-pack service name. -/
def ServiceReceivePack : String := "git-receive-pack"

/-- Models `Service.Command`: the executable name is the service string. -/
def serviceCommand (s : String) : String := s

/-- Models `Service.IsSupported`. -/
def serviceIsSupported (s : String) : Bool :=
  s == ServiceUploadPack || s == ServiceReceivePack

/-- Models `service.ServiceRequest`. -/
structure ServiceRequest where
  Service : String
  RepoPath : String
  ProtocolVersion : String
  deriving DecidableEq, Repr

/-- Models `ServiceRequest.Validate`. -/
def ServiceRequest.Validate (r : ServiceRequest) : Except String Unit :=
  if serviceIsSupported r.Service = false then
    .error ("unsupported service: " ++ r.Service)
  else if r.RepoPath = "" then .error "missing repository path"
  else .ok ()

/-- Models `service.ParseSSHCommand`. -/
def ParseSSHCommand (command : String) : Except String ServiceRequest :=
  let raw := goTrimSpace command
  if raw = "" then .error "empty command"
  else
    match goFields raw with
    | p0 :: p1 :: _ =>
      let svc := p0
      let repoToken := goTrimCutset p1 ['"', Char.ofNat 39]
      let req : ServiceRequest :=
        { Service := svc, RepoPath := repoToken, ProtocolVersion := "" }
      match req.Validate with
      | .error e => .error e
      | .ok _ => .ok req
    | _ => .error ("invalid command: " ++ raw)

/-- Models `service.ServiceExecutor`. -/
structure ServiceExecutor where
  UploadPackPath : String
  ReceivePackPath : String
  BaseEnv : List String
  WorkDir : String
  deriving DecidableEq, Repr

/-- The subprocess invocation `ServiceExecutor.Serve` builds: binary,
argument list, working directory and environment of the `exec.Cmd` it
hands to `cmd.Run()`. -/
structure ExecCmd where
  binary : String
  args : List String
  dir : String
  env : List String
  deriving DecidableEq, Repr

/-- Models `ServiceExecutor.resolveBinary`. -/
def ServiceExecutor.resolveBinary (e : ServiceExecutor) (svc : String) :
    Except String String :=
  if svc = ServiceUploadPack then
    .ok (if e.UploadPackPath ≠ "" then e.UploadPackPath else serviceCommand ServiceUploadPack)
  else if svc = ServiceReceivePack then
    .ok (if e.ReceivePackPath ≠ "" then e.ReceivePackPath else serviceCommand ServiceReceivePack)
  else .error ("unsupported service: " ++ svc)

/-- Models `ServiceExecutor.Serve` up to the process boundary: an `.ok`
result is the command `cmd.Run()` would execute (stdin/stdout/stderr are
wired to the caller's streams); an `.error` is returned before any
command is constructed or run.  `osEnviron` stands for `os.Environ()`. -/
def ServiceExecutor.Serve (e : ServiceExecutor) (osEnviron : List String)
    (req : ServiceRequest) : Except String ExecCmd :=
  match req.Validate with
  | .error msg => .error msg
  | .ok _ =>
    match e.resolveBinary req.Service with
    | .error msg => .error msg
    | .ok binary =>
      let env := osEnviron ++ e.BaseEnv
      let env := if req.ProtocolVersion ≠ "" then
          env ++ ["GIT_PROTOCOL=" ++ req.ProtocolVersion]
        else env
      .ok { binary := binary, args := [req.RepoPath], dir := e.WorkDir, env := env }

/-- Models `service.Transport`; the five classificatory values. -/
def TransportLocal : String := "local"

/-- ssh transport. -/
def TransportSSH : String := "ssh"

/-- git transport. -/
def TransportGit : String := "git"

/-- http transport. -/
def TransportHTTP : String := "http"

/-- https transport. -/
def TransportHTTPS : String := "https"

/-- Models `service.Endpoint`. -/
structure Endpoint where
  Transport : String
  User : String
  Host : String
  Port : String
  Path : String
  deriving DecidableEq, Repr

/-- Models `service.splitUserHost`: split `[user@]host` at the first `@`
(`strings.SplitN(s, "@", 2)`); the user is empty when there is no `@`. -/
def splitUserHost (s : String) : String × String :=
  if goContainsChar s '@' then
    match cutCharList '@' s.data with
    | some (u, h) => (String.mk u, String.mk h)
    | none => ("", s)
  else ("", s)

/-- Models `service.ensureLeadingSlash`. -/
def ensureLeadingSlash (p : String) : String :=
  if p = "" then "/"
  else if goHasPre p "/" = false then "/" ++ p
  else p

/-- Models `service.ParseEndpoint`.  The final URL branch delegates to Go
`net/url.Parse`, which is outside the repository; it is abstracted as the
`urlBranch` parameter, so every theorem below holds for any behaviour of
that branch. -/
def ParseEndpoint (urlBranch : String → Except String Endpoint)
    (raw : String) : Except String Endpoint :=
  if raw = "" then .error "empty endpoint"
  else if goContainsSub raw "://" = false ∧ goContainsChar raw '@' = false ∧
      goContainsChar raw ':' = false then
    .ok { Transport := TransportLocal, User := "", Host := "", Port := "", Path := raw }
  else if goContainsSub raw "://" = false ∧ goContainsChar raw ':' = true then
    match cutCharList ':' raw.data with
    | none => .error "invalid scp-like syntax"
    | some (userHost, repoPath) =>
      let uh := splitUserHost (String.mk userHost)
      .ok { Transport := TransportSSH, User := uh.1, Host := uh.2, Port := "",
            Path := ensureLeadingSlash (String.mk repoPath) }
  else urlBranch raw

end service

/-! ## The `httpsmart` package -/

namespace httpsmart

/-- Models `httpsmart.Server`. -/
structure Server where
  RepoRoot : String
  UploadPackPath : String
  ReceivePackPath : String
  deriving DecidableEq, Repr

/-- One observable action of the info/refs handler, in the order the Go
code performs it: `status` is `http.Error` (status code plus message,
written before any streaming), `header` is `w.Header().Set`, `body` is a
write of body bytes to `w`, `flush` is `http.Flusher.Flush`, `execCmd` is
the `exec.CommandContext(...)` + `cmd.Run()` of the stateless-RPC runner
(`hasStdin` records whether a request body is wired to stdin), and
`logLine` is `log.Printf`. -/
inductive HttpEvent where
  | status (code : Nat) (msg : String)
  | header (name value : String)
  | body (chunk : String)
  | flush
  | execCmd (binary : String) (args : List String) (hasStdin : Bool)
  | logLine (line : String)
  deriving DecidableEq, Repr

/-- Is the event an `http.Error` status report? -/
def isStatusEv : HttpEvent → Bool
  | .status _ _ => true
  | _ => false

/-- Is the event a write of body bytes? -/
def isBodyEv : HttpEvent → Bool
  | .body _ => true
  | _ => false

/-- Models `httpsmart.ensureWithinRoot`. -/
def ensureWithinRoot (root full : String) : Except String Unit :=
  let rootClean := filepathClean root
  let fullClean := filepathClean full
  if rootClean = fullClean then .ok ()
  else if goHasPre fullClean (rootClean ++ "/") = false then
    .error "invalid path traversal"
  else .ok ()

/-- Models `httpsmart.pathClean`. -/
def pathClean (p : String) : String :=
  let p1 := dropPre p "/"
  let p2 := dropSuf p1 "/"
  let p3 := filepathToSlash (filepathClean p2)
  if p3 = "." then "/" else "/" ++ p3

/-- Models `Server.repoPathFromURL`. -/
def Server.repoPathFromURL (_s : Server) (pre : String) : Except String String :=
  let cleaned := pathClean pre
  if cleaned = "" ∨ cleaned = "/" then .error "invalid repository path"
  else .ok cleaned

/-- Models `httpsmart.parseServiceParam`. -/
def parseServiceParam (raw : String) : Except String String :=
  if raw = "git-upload-pack" then .ok service.ServiceUploadPack
  else if raw = "git-receive-pack" then .ok service.ServiceReceivePack
  else .error ("unsupported service \"" ++ raw ++ "\"")

/-- Models `Server.runStatelessRPC` up to the process boundary: `stat`
stands for `os.Stat` succeeding on a path, and an `.ok` result is the
`(binary, args)` pair of the `exec.CommandContext` invocation `cmd.Run()`
receives; an `.error` is returned before any command is constructed. -/
def Server.runStatelessRPC (s : Server) (stat : String → Bool)
    (svc repoPath : String) (advertise : Bool) :
    Except String (String × List String) :=
  if service.serviceIsSupported svc = false then
    .error ("unsupported service: " ++ svc)
  else
    let repoFull := filepathJoin s.RepoRoot (filepathFromSlash (dropPre repoPath "/"))
    match ensureWithinRoot s.RepoRoot repoFull with
    | .error e => .error e
    | .ok _ =>
      if stat repoFull = false then .error "repo not found"
      else
        let args := ["--stateless-rpc"] ++
          (if advertise then ["--advertise-refs"] else []) ++ [repoFull]
        let binary := service.serviceCommand svc
        let binary := if svc = service.ServiceUploadPack ∧ s.UploadPackPath ≠ "" then
            s.UploadPackPath else binary
        let binary := if svc = service.ServiceReceivePack ∧ s.ReceivePackPath ≠ "" then
            s.ReceivePackPath else binary
        .ok (binary, args)

/-- Lowercase `%04x` formatting of a hexadecimal digit. -/
def hexDigit (n : Nat) : Char :=
  if n < 10 then Char.ofNat (48 + n) else Char.ofNat (87 + n)

/-- Hexadecimal digits of `n`, most significant first (`fuel` bounds the
recursion; callers pass `n` itself, which suffices). -/
def hexDigits : Nat → Nat → List Char
  | 0, _ => []
  | _ + 1, 0 => []
  | fuel + 1, n => hexDigits fuel (n / 16) ++ [hexDigit (n % 16)]

/-- Models Go `fmt.Sprintf("%04x", n)`: lowercase hex, zero-padded to at
least four digits. -/
def toHex4 (n : Nat) : String :=
  let ds := if n = 0 then ['0'] else hexDigits n n
  String.mk (List.replicate (4 - ds.length) '0' ++ ds)

/-- Models `Server.handleInfoRefs` as the ordered list of observable
actions it performs for a request with the given method, URL path and
`service` query parameter. -/
def Server.handleInfoRefs (s : Server) (stat : String → Bool)
    (method urlPath svcParam : String) : List HttpEvent :=
  if method ≠ "GET" then [.status 405 "method not allowed"]
  else
    match parseServiceParam svcParam with
    | .error e => [.status 400 e]
    | .ok svc =>
      match s.repoPathFromURL (dropSuf urlPath "/info/refs") with
      | .error e => [.status 400 e]
      | .ok repoPath =>
        let headerLine := "# service=" ++ service.serviceCommand svc ++ "\n"
        let pre : List HttpEvent :=
          [.header "Content-Type"
              ("application/x-" ++ service.serviceCommand svc ++ "-advertisement"),
           .header "Cache-Control" "no-cache",
           .body (toHex4 (headerLine.utf8ByteSize + 4) ++ headerLine),
           .body "0000", .flush]
        match s.runStatelessRPC stat svc repoPath true with
        | .error e => pre ++ [.logLine ("info/refs " ++ repoPath ++ ": " ++ e)]
        | .ok (binary, args) => pre ++ [.execCmd binary args false]

end httpsmart

/-! ## The `ssh` package -/

namespace ssh

/-- Models `ssh.Server`.  `GracefulTimeout` is a `time.Duration`
(nanoseconds). -/
structure Server where
  Addr : String
  RepoRoot : String
  HostKeyPath : String
  AuthorizedKeysPath : String
  UploadPackPath : String
  ReceivePackPath : String
  BaseEnv : List String
  GracefulTimeout : Int
  deriving DecidableEq, Repr

/-- Models `ssh.ensureWithinRoot` (identical to the httpsmart copy except
for the error message). -/
def ensureWithinRoot (root full : String) : Except String Unit :=
  let rootClean := filepathClean root
  let fullClean := filepathClean full
  if rootClean = fullClean then .ok ()
  else if goHasPre fullClean (rootClean ++ "/") = false then
    .error "path traversal detected"
  else .ok ()

/-- Models `Server.resolveRepoPath`. -/
def Server.resolveRepoPath (s : Server) (raw : String) : Except String String :=
  let c1 := goTrimSpace raw
  let c2 := goTrimCutset c1 ['"', Char.ofNat 39]
  let c3 := filepathToSlash (filepathClean c2)
  let cleaned := dropPre c3 "/"
  if cleaned = "" ∨ cleaned = "." then .error "empty path"
  else
    let full := filepathJoin s.RepoRoot (filepathFromSlash cleaned)
    match ensureWithinRoot s.RepoRoot full with
    | .error e => .error e
    | .ok _ => .ok full

/-- Models `ssh.gitProtocolEnv`: the value of the first `GIT_PROTOCOL=`
entry, or the empty string. -/
def gitProtocolEnv : List String → String
  | [] => ""
  | e :: rest =>
    if goHasPre e "GIT_PROTOCOL=" then dropPre e "GIT_PROTOCOL=" else gitProtocolEnv rest

/-- The inputs `gossh.Session` supplies to the handler: the raw command
string and the session environment. -/
structure Session where
  rawCmd : String
  environ : List String
  deriving DecidableEq, Repr

/-- One observable action of the SSH session handler, in order:
diagnostics written to the session's error stream, `sess.Exit` codes,
`sessionCounter.add` calls, and the executor invocation (the `ExecCmd`
`ServiceExecutor.Serve` hands to `cmd.Run()`). -/
inductive SessEvent where
  | stderrLine (line : String)
  | exit (code : Nat)
  | counterAdd (delta : Int)
  | execServe (cmd : service.ExecCmd)
  deriving DecidableEq, Repr

/-- Models `Server.handleSession` as the ordered list of observable
actions.  `stat` stands for `os.Stat` succeeding on a path; `runOk` for
the executor's subprocess exiting successfully; `osEnviron` for
`os.Environ()`. -/
def Server.handleSession (s : Server) (stat : String → Bool) (runOk : Bool)
    (osEnviron : List String) (sess : Session) : List SessEvent :=
  match service.ParseSSHCommand sess.rawCmd with
  | .error e => [.stderrLine ("invalid command: " ++ e), .exit 1]
  | .ok req =>
    match s.resolveRepoPath req.RepoPath with
    | .error e => [.stderrLine ("invalid repo path: " ++ e), .exit 1]
    | .ok repoFull =>
      if stat repoFull = false then
        [.stderrLine "repository not found", .exit 1]
      else
        let ex : service.ServiceExecutor :=
          { UploadPackPath := s.UploadPackPath, ReceivePackPath := s.ReceivePackPath,
            BaseEnv := s.BaseEnv, WorkDir := "" }
        let execReq : service.ServiceRequest :=
          { Service := req.Service, RepoPath := repoFull,
            ProtocolVersion := gitProtocolEnv sess.environ }
        match ex.Serve osEnviron execReq with
        | .error e => [.stderrLine ("git service failed: " ++ e), .exit 1]
        | .ok cmd =>
          if runOk then [.execServe cmd, .exit 0]
          else [.execServe cmd, .stderrLine "git service failed", .exit 1]

/-- Models `ssh.wrapSessionCount`: `counter.add(1)` on entry and a
deferred `counter.add(-1)` that runs on every exit path of `next`. -/
def wrapSessionCount (next : Session → List SessEvent) (sess : Session) :
    List SessEvent :=
  .counterAdd 1 :: next sess ++ [.counterAdd (-1)]

/-- The `sessionCounter.add` deltas occurring in an event list, in order. -/
def counterDeltas (evs : List SessEvent) : List Int :=
  evs.filterMap fun e =>
    match e with
    | .counterAdd d => some d
    | _ => none

/-! ### The session drain counter's `wait`

`sessionCounter.wait` holds the mutex, loops while `active > 0`, and in
each iteration polls `ctx.Done()` (non-blocking select) and then blocks
in `cond.Wait()`; after being woken it re-checks `ctx.Err()`.  The only
`cond.Broadcast()` in the program is in `sessionCounter.add`.  The model
below is a state machine over the quiescent configurations of the
waiting goroutine (either blocked in `cond.Wait` or returned, the two
points at which other goroutines can take the mutex), with the
environment's actions — an `add(delta)` with its broadcast, and the
expiry of the wait context — as events. -/

/-- Quiescent phase of the goroutine executing `wait`. -/
inductive WaiterPhase where
  | inWait
  | returned
  deriving DecidableEq, Repr

/-- Shared state: the waiter phase, the counter value and whether the
wait context's deadline has expired. -/
structure DrainState where
  waiter : WaiterPhase
  active : Int
  expired : Bool
  deriving DecidableEq, Repr

/-- The loop head of `wait`: exit the loop (and return) when
`active ≤ 0`; return through the `ctx.Done()` select arm when the
context has expired; otherwise block in `cond.Wait()`. -/
def stepFromLoop (active : Int) (expired : Bool) : WaiterPhase :=
  if active ≤ 0 then .returned
  else if expired then .returned
  else .inWait

/-- Entering `wait` with the given counter value and context state. -/
def waitEnter (active : Int) (expired : Bool) : DrainState :=
  { waiter := stepFromLoop active expired, active := active, expired := expired }

/-- Environment events: `add(delta)` (which broadcasts) and the expiry of
the wait context's deadline (which does not broadcast). -/
inductive DrainEvent where
  | add (delta : Int)
  | expire
  deriving DecidableEq, Repr

/-- One environment event applied to the shared state.  An `add` updates
the counter and broadcasts: a waiter blocked in `cond.Wait` wakes,
re-checks `ctx.Err()`, and re-runs the loop head.  An `expire` only
flips the context flag — nothing wakes the waiter. -/
def drainStep (st : DrainState) : DrainEvent → DrainState
  | .add d =>
    let newActive := st.active + d
    match st.waiter with
    | .inWait =>
      { waiter := if st.expired then .returned else stepFromLoop newActive st.expired,
        active := newActive, expired := st.expired }
    | .returned => { st with active := newActive }
  | .expire => { st with expired := true }

/-- Run a sequence of environment events. -/
def waitRun (st : DrainState) (evs : List DrainEvent) : DrainState :=
  evs.foldl drainStep st

end ssh

example :
    ssh.Server.handleSession ⟨"", "/srv/repos", "", "", "", "", [], 0⟩ (fun _ => true) true
      [] ⟨"git-upload-pack '/owner/repo.git'", []⟩ =
    [.execServe { binary := "git-upload-pack", args := ["/srv/repos/owner/repo.git"],
                  dir := "", env := [] },
     .exit 0] := by decide
example :
    ssh.Server.resolveRepoPath ⟨"", "/srv/repos", "", "", "", "", [], 0⟩ "/" =
      .error "empty path" := by decide
example :
    ssh.Server.resolveRepoPath ⟨"", "/srv/repos", "", "", "", "", [], 0⟩
      "'../../etc/passwd'" = .error "path traversal detected" := by decide
example : (ssh.waitEnter 0 false).waiter = .returned := by decide
example : (ssh.waitEnter 1 false).waiter = .inWait := by decide
example : (ssh.waitRun (ssh.waitEnter 1 false) [.expire, .expire]).waiter = .inWait := by
  decide
example : (ssh.waitRun (ssh.waitEnter 1 false) [.expire, .add (-1)]).waiter =
    .returned := by decide
example : (ssh.waitRun (ssh.waitEnter 1 false) [.add (-1)]).waiter = .returned := by
  decide

example : httpsmart.toHex4 30 = "001e" := by decide
example : httpsmart.toHex4 0 = "0000" := by decide
example : httpsmart.pathClean "/owner/repo.git" = "/owner/repo.git" := by decide
example : httpsmart.pathClean "/" = "/" := by decide
example : httpsmart.pathClean "" = "/" := by decide
example : httpsmart.ensureWithinRoot "/srv/repos" "/srv/repos-evil/x" =
    .error "invalid path traversal" := by decide
example : httpsmart.ensureWithinRoot "/srv/repos" "/srv/repos" = .ok () := by decide
example :
    httpsmart.Server.handleInfoRefs ⟨"/srv/repos", "", ""⟩ (fun _ => true)
      "GET" "/owner/repo.git/info/refs" "git-upload-pack" =
    [.header "Content-Type" "application/x-git-upload-pack-advertisement",
     .header "Cache-Control" "no-cache",
     .body "001e# service=git-upload-pack\n",
     .body "0000", .flush,
     .execCmd "git-upload-pack"
       ["--stateless-rpc", "--advertise-refs", "/srv/repos/owner/repo.git"] false] := by
  decide
example :
    httpsmart.Server.handleInfoRefs ⟨"/srv/repos", "", ""⟩ (fun _ => true)
      "GET" "/../../etc/passwd/info/refs" "git-upload-pack" =
    [.header "Content-Type" "application/x-git-upload-pack-advertisement",
     .header "Cache-Control" "no-cache",
     .body "001e# service=git-upload-pack\n",
     .body "0000", .flush,
     .logLine "info/refs /../../etc/passwd: invalid path traversal"] := by
  decide

example : service.ParseSSHCommand "git-upload-pack '/a/b.git'" =
    .ok { Service := "git-upload-pack", RepoPath := "/a/b.git", ProtocolVersion := "" } := by
  decide
example : service.ParseSSHCommand "" = .error "empty command" := by decide
example : service.ParseSSHCommand "git-upload-pack" =
    .error "invalid command: git-upload-pack" := by decide
example : service.ParseSSHCommand "rm -rf /" =
    .error "unsupported service: rm" := by decide
example : service.ParseEndpoint (fun _ => .error "url") "git@example.com:repo/project.git" =
    .ok { Transport := "ssh", User := "git", Host := "example.com", Port := "",
          Path := "/repo/project.git" } := by decide
example : service.ParseEndpoint (fun _ => .error "url") "/srv/git/project.git" =
    .ok { Transport := "local", User := "", Host := "", Port := "",
          Path := "/srv/git/project.git" } := by decide
example : service.ParseEndpoint (fun _ => .error "url") "host.xz:path" =
    .ok { Transport := "ssh", User := "", Host := "host.xz", Port := "",
          Path := "/path" } := by decide

/-! ## Helper lemmas -/

/-- `goHasPre` holds exactly when the string decomposes as the candidate
prefix followed by some rest. -/
theorem goHasPre_iff (s pre : String) :
    goHasPre s pre = true ↔ ∃ rest : String, s = pre ++ rest := by
  unfold goHasPre
  rw [List.isPrefixOf_iff_prefix]
  constructor
  · rintro ⟨t, ht⟩
    refine ⟨String.mk t, String.ext ?_⟩
    rw [String.data_append, ← ht]
  · rintro ⟨rest, hrest⟩
    exact ⟨rest.data, by rw [hrest, String.data_append]⟩

/-- Acceptance condition of `httpsmart.ensureWithinRoot`, phrased as a
string decomposition. -/
theorem httpsmart_ensureWithinRoot_ok_iff (root full : String) :
    httpsmart.ensureWithinRoot root full = .ok () ↔
      (filepathClean full = filepathClean root ∨
        ∃ rest, filepathClean full = filepathClean root ++ "/" ++ rest) := by
  unfold httpsmart.ensureWithinRoot
  by_cases h1 : filepathClean root = filepathClean full
  · simp [h1]
  · simp only [if_neg h1]
    by_cases h2 : goHasPre (filepathClean full) (filepathClean root ++ "/") = false
    · simp only [if_pos h2]
      constructor
      · intro h; exact absurd h (by simp)
      · rintro (h | ⟨rest, hrest⟩)
        · exact absurd h.symm h1
        · have : goHasPre (filepathClean full) (filepathClean root ++ "/") = true := by
            rw [goHasPre_iff]
            exact ⟨rest, by rw [hrest, String.append_assoc]⟩
          rw [this] at h2; cases h2
    · simp only [if_neg h2]
      have h2t : goHasPre (filepathClean full) (filepathClean root ++ "/") = true := by
        cases h : goHasPre (filepathClean full) (filepathClean root ++ "/")
        · exact absurd h h2
        · rfl
      rw [goHasPre_iff] at h2t
      obtain ⟨rest, hrest⟩ := h2t
      simp only [true_iff]
      exact Or.inr ⟨rest, by rw [hrest, String.append_assoc]⟩

/-- Acceptance condition of `ssh.ensureWithinRoot` (same test, different
error message). -/
theorem ssh_ensureWithinRoot_ok_iff (root full : String) :
    ssh.ensureWithinRoot root full = .ok () ↔
      (filepathClean full = filepathClean root ∨
        ∃ rest, filepathClean full = filepathClean root ++ "/" ++ rest) := by
  unfold ssh.ensureWithinRoot
  by_cases h1 : filepathClean root = filepathClean full
  · simp [h1]
  · simp only [if_neg h1]
    by_cases h2 : goHasPre (filepathClean full) (filepathClean root ++ "/") = false
    · simp only [if_pos h2]
      constructor
      · intro h; exact absurd h (by simp)
      · rintro (h | ⟨rest, hrest⟩)
        · exact absurd h.symm h1
        · have : goHasPre (filepathClean full) (filepathClean root ++ "/") = true := by
            rw [goHasPre_iff]
            exact ⟨rest, by rw [hrest, String.append_assoc]⟩
          rw [this] at h2; cases h2
    · simp only [if_neg h2]
      have h2t : goHasPre (filepathClean full) (filepathClean root ++ "/") = true := by
        cases h : goHasPre (filepathClean full) (filepathClean root ++ "/")
        · exact absurd h h2
        · rfl
      rw [goHasPre_iff] at h2t
      obtain ⟨rest, hrest⟩ := h2t
      simp only [true_iff]
      exact Or.inr ⟨rest, by rw [hrest, String.append_assoc]⟩

/-! ## Claims -/

/-- C1: for every configured repository root and client-supplied
repository path, the confinement check shared by both transport handlers
accepts iff the cleaned full path equals the cleaned root or begins with
the cleaned root followed by the path separator; with root `/srv/repos`,
joining `../../etc/passwd` resolves to `/etc/passwd` and is rejected,
joining `owner/repo.git` resolves to `/srv/repos/owner/repo.git` and is
accepted, and the sibling path `/srv/repos-evil/x` is rejected although
it shares the root as a plain string prefix. -/
theorem C1_path_confinement :
    (∀ root full : String,
      (httpsmart.ensureWithinRoot root full = .ok () ↔
        (filepathClean full = filepathClean root ∨
          ∃ rest, filepathClean full = filepathClean root ++ "/" ++ rest)) ∧
      (ssh.ensureWithinRoot root full = .ok () ↔
        (filepathClean full = filepathClean root ∨
          ∃ rest, filepathClean full = filepathClean root ++ "/" ++ rest))) ∧
    filepathJoin "/srv/repos" "../../etc/passwd" = "/etc/passwd" ∧
    httpsmart.ensureWithinRoot "/srv/repos" (filepathJoin "/srv/repos" "../../etc/passwd") =
      .error "invalid path traversal" ∧
    ssh.ensureWithinRoot "/srv/repos" (filepathJoin "/srv/repos" "../../etc/passwd") =
      .error "path traversal detected" ∧
    filepathJoin "/srv/repos" "owner/repo.git" = "/srv/repos/owner/repo.git" ∧
    httpsmart.ensureWithinRoot "/srv/repos" (filepathJoin "/srv/repos" "owner/repo.git") =
      .ok () ∧
    ssh.ensureWithinRoot "/srv/repos" (filepathJoin "/srv/repos" "owner/repo.git") = .ok () ∧
    httpsmart.ensureWithinRoot "/srv/repos" "/srv/repos-evil/x" =
      .error "invalid path traversal" ∧
    ssh.ensureWithinRoot "/srv/repos" "/srv/repos-evil/x" =
      .error "path traversal detected" :=
  ⟨fun root full =>
    ⟨httpsmart_ensureWithinRoot_ok_iff root full, ssh_ensureWithinRoot_ok_iff root full⟩,
   by decide, by decide, by decide, by decide, by decide, by decide, by decide, by decide⟩

/-- C4: validation rejects a service outside {upload-pack, receive-pack}
or an empty repository path, and `ServiceExecutor.Serve` then returns
that validation error without constructing or running a command. -/
theorem C4_validate_before_spawn :
    (∀ r : service.ServiceRequest,
      (∃ msg, r.Validate = .error msg) ↔
        (service.serviceIsSupported r.Service = false ∨ r.RepoPath = "")) ∧
    (∀ (e : service.ServiceExecutor) (osEnv : List String)
        (r : service.ServiceRequest) (msg : String),
      r.Validate = .error msg → e.Serve osEnv r = .error msg) := by
  constructor
  · intro r
    unfold service.ServiceRequest.Validate
    by_cases h1 : service.serviceIsSupported r.Service = false
    · simp [h1]
    · by_cases h2 : r.RepoPath = ""
      · simp [h1, h2]
      · simp [h1, h2]
  · intro e osEnv r msg h
    unfold service.ServiceExecutor.Serve
    rw [h]

/-- Witness for C4 at a concrete unsupported request. -/
theorem C4_validate_before_spawn_witness :
    service.ServiceExecutor.Serve ⟨"", "", [], ""⟩ []
        { Service := "git-evil", RepoPath := "x", ProtocolVersion := "" } =
      .error "unsupported service: git-evil" :=
  C4_validate_before_spawn.2 ⟨"", "", [], ""⟩ []
    { Service := "git-evil", RepoPath := "x", ProtocolVersion := "" }
    "unsupported service: git-evil" (by decide)

/-- Successful shape of `ParseSSHCommand`: with at least two
whitespace-separated fields, a supported first field and a non-empty
quote-stripped second field, parsing succeeds and the result is built
from the first two fields only. -/
theorem parseSSH_ok_shape (cmd p0 p1 : String) (rest : List String)
    (hf : goFields (goTrimSpace cmd) = p0 :: p1 :: rest)
    (hsupp : service.serviceIsSupported p0 = true)
    (hpath : goTrimCutset p1 ['"', Char.ofNat 39] ≠ "") :
    service.ParseSSHCommand cmd =
      .ok { Service := p0, RepoPath := goTrimCutset p1 ['"', Char.ofNat 39],
            ProtocolVersion := "" } := by
  have hraw : goTrimSpace cmd ≠ "" := by
    intro h
    rw [h] at hf
    rw [show goFields "" = [] from rfl] at hf
    simp at hf
  simp only [service.ParseSSHCommand]
  rw [if_neg hraw, hf]
  simp [service.ServiceRequest.Validate, hsupp, hpath]

/-- C5: `parseSSHCommand` trims whitespace, rejects an empty command,
rejects fewer than two fields, takes field one as the service and the
quote-stripped field two as the path, and rejects services outside the
closed set; `git-upload-pack '/a/b.git'` parses to
service=git-upload-pack, path=/a/b.git. -/
theorem C5_parse_ssh_command :
    service.ParseSSHCommand "git-upload-pack '/a/b.git'" =
      .ok { Service := service.ServiceUploadPack, RepoPath := "/a/b.git",
            ProtocolVersion := "" } ∧
    (∀ cmd, goTrimSpace cmd = "" →
      service.ParseSSHCommand cmd = .error "empty command") ∧
    (∀ cmd, goTrimSpace cmd ≠ "" → (goFields (goTrimSpace cmd)).length < 2 →
      service.ParseSSHCommand cmd = .error ("invalid command: " ++ goTrimSpace cmd)) ∧
    (∀ cmd p0 p1 rest, goFields (goTrimSpace cmd) = p0 :: p1 :: rest →
      service.serviceIsSupported p0 = false →
      service.ParseSSHCommand cmd = .error ("unsupported service: " ++ p0)) := by
  refine ⟨by decide, ?_, ?_, ?_⟩
  · intro cmd h
    simp only [service.ParseSSHCommand]
    rw [if_pos h]
  · intro cmd hne hlen
    simp only [service.ParseSSHCommand]
    rw [if_neg hne]
    cases hf2 : goFields (goTrimSpace cmd) with
    | nil => rfl
    | cons p0 tl =>
      cases tl with
      | nil => rfl
      | cons p1 rest =>
        rw [hf2] at hlen
        simp only [List.length_cons] at hlen
        omega
  · intro cmd p0 p1 rest hf hsupp
    have hraw : goTrimSpace cmd ≠ "" := by
      intro h
      rw [h] at hf
      rw [show goFields "" = [] from rfl] at hf
      simp at hf
    simp only [service.ParseSSHCommand]
    rw [if_neg hraw, hf]
    simp [service.ServiceRequest.Validate, hsupp]

/-- Witness for C5 on concrete rejected commands. -/
theorem C5_parse_ssh_command_witness :
    service.ParseSSHCommand "   " = .error "empty command" ∧
    service.ParseSSHCommand "git-upload-pack" =
      .error "invalid command: git-upload-pack" ∧
    service.ParseSSHCommand "rm -rf /" = .error "unsupported service: rm" :=
  ⟨C5_parse_ssh_command.2.1 "   " (by decide),
   C5_parse_ssh_command.2.2.1 "git-upload-pack" (by decide) (by decide),
   C5_parse_ssh_command.2.2.2 "rm -rf /" "rm" "-rf" ["/"] (by decide) (by decide)⟩

/-- C10: `ParseSSHCommand` ignores every whitespace-separated field after
the second — for any command whose field list starts with a supported
service and a second field that is non-empty after quote stripping, the
result is determined by those two fields alone, whatever the trailing
fields are. -/
theorem C10_trailing_fields_ignored (cmd p0 p1 : String) (rest : List String)
    (hf : goFields (goTrimSpace cmd) = p0 :: p1 :: rest)
    (hsupp : service.serviceIsSupported p0 = true)
    (hpath : goTrimCutset p1 ['"', Char.ofNat 39] ≠ "") :
    service.ParseSSHCommand cmd =
      .ok { Service := p0, RepoPath := goTrimCutset p1 ['"', Char.ofNat 39],
            ProtocolVersion := "" } :=
  parseSSH_ok_shape cmd p0 p1 rest hf hsupp hpath

/-- Witness for C10: trailing tokens after the path are ignored. -/
theorem C10_trailing_fields_ignored_witness :
    service.ParseSSHCommand "git-upload-pack '/a/b.git' extra junk" =
      .ok { Service := "git-upload-pack",
            RepoPath := goTrimCutset "'/a/b.git'" ['"', Char.ofNat 39],
            ProtocolVersion := "" } :=
  C10_trailing_fields_ignored "git-upload-pack '/a/b.git' extra junk"
    "git-upload-pack" "'/a/b.git'" ["extra", "junk"] (by decide) (by decide) (by decide)

/-- C8 counterexample: a client path whose cleaned form is `.` — the
URL-path remainder `/` on HTTP, the command path `/` on SSH — is not
accepted as the repository root: both transport handlers reject it. -/
theorem C8_root_path_counterexample :
    filepathClean (dropSuf (dropPre "/" "/") "/") = "." ∧
    httpsmart.Server.repoPathFromURL ⟨"/srv/repos", "", ""⟩ "/" =
      .error "invalid repository path" ∧
    ssh.Server.resolveRepoPath ⟨"", "/srv/repos", "", "", "", "", [], 0⟩ "/" =
      .error "empty path" := by
  refine ⟨by decide, by decide, by decide⟩

/-- C8 amended: a client-supplied repository path whose cleaned form is
`.` (equivalently, that reduces to the root itself) is rejected by both
transport handlers — HTTP `repoPathFromURL` answers "invalid repository
path" and SSH `resolveRepoPath` answers "empty path" — never resolved to
the configured root. -/
theorem C8_root_path_rejected :
    (∀ (srv : httpsmart.Server) (p : String),
      filepathClean (dropSuf (dropPre p "/") "/") = "." →
      srv.repoPathFromURL p = .error "invalid repository path") ∧
    (∀ (srv : ssh.Server) (raw : String),
      dropPre (filepathClean (goTrimCutset (goTrimSpace raw)
          ['"', Char.ofNat 39])) "/" = "" ∨
        dropPre (filepathClean (goTrimCutset (goTrimSpace raw)
          ['"', Char.ofNat 39])) "/" = "." →
      srv.resolveRepoPath raw = .error "empty path") := by
  constructor
  · intro srv p hcl
    simp only [httpsmart.Server.repoPathFromURL, httpsmart.pathClean, filepathToSlash]
    rw [hcl]
    simp
  · intro srv raw h
    simp only [ssh.Server.resolveRepoPath, filepathToSlash]
    rw [if_pos h]

/-- Witness for C8 amended, at `/`-equivalent inputs on both transports. -/
theorem C8_root_path_rejected_witness :
    httpsmart.Server.repoPathFromURL ⟨"/srv", "", ""⟩ "" =
      .error "invalid repository path" ∧
    ssh.Server.resolveRepoPath ⟨"", "/srv", "", "", "", "", [], 0⟩ "'.'" =
      .error "empty path" :=
  ⟨C8_root_path_rejected.1 ⟨"/srv", "", ""⟩ "" (by decide),
   C8_root_path_rejected.2 ⟨"", "/srv", "", "", "", "", [], 0⟩ "'.'"
     (Or.inr (by decide))⟩

/-- C2 counterexample: on a GET info/refs request whose repository path
escapes the root, the handler writes the content-type header and the
advertisement preamble body bytes first and only then runs the
confinement check inside the stateless-RPC runner; the violation is
logged, and no HTTP status code is ever reported. -/
theorem C2_confinement_after_streaming_counterexample :
    httpsmart.Server.handleInfoRefs ⟨"/srv/repos", "", ""⟩ (fun _ => true)
        "GET" "/../../etc/passwd/info/refs" "git-upload-pack" =
      [.header "Content-Type" "application/x-git-upload-pack-advertisement",
       .header "Cache-Control" "no-cache",
       .body "001e# service=git-upload-pack\n",
       .body "0000", .flush,
       .logLine "info/refs /../../etc/passwd: invalid path traversal"] ∧
    (httpsmart.Server.handleInfoRefs ⟨"/srv/repos", "", ""⟩ (fun _ => true)
        "GET" "/../../etc/passwd/info/refs" "git-upload-pack").filter
      httpsmart.isStatusEv = [] ∧
    (httpsmart.Server.handleInfoRefs ⟨"/srv/repos", "", ""⟩ (fun _ => true)
        "GET" "/../../etc/passwd/info/refs" "git-upload-pack").filter
      httpsmart.isBodyEv ≠ [] := by
  refine ⟨by decide, by decide, by decide⟩

/-- C2 amended: malformed input detected before streaming — a non-GET
method, an unsupported service parameter, or an invalid repository path —
is reported as a single HTTP status (405 or 400) with no headers or body
written; but the root-confinement check runs only inside the
stateless-RPC runner, after the advertisement preamble has been written,
so a confinement violation produces body bytes, no status code, and a
trailing log line. -/
theorem C2_prestream_errors :
    (∀ (srv : httpsmart.Server) (stat : String → Bool)
        (method urlPath svcParam : String), method ≠ "GET" →
      srv.handleInfoRefs stat method urlPath svcParam =
        [.status 405 "method not allowed"]) ∧
    (∀ (srv : httpsmart.Server) (stat : String → Bool) (urlPath svcParam e : String),
      httpsmart.parseServiceParam svcParam = .error e →
      srv.handleInfoRefs stat "GET" urlPath svcParam = [.status 400 e]) ∧
    (∀ (srv : httpsmart.Server) (stat : String → Bool) (urlPath svcParam svc e : String),
      httpsmart.parseServiceParam svcParam = .ok svc →
      srv.repoPathFromURL (dropSuf urlPath "/info/refs") = .error e →
      srv.handleInfoRefs stat "GET" urlPath svcParam = [.status 400 e]) ∧
    (∀ (srv : httpsmart.Server) (stat : String → Bool)
        (urlPath svcParam svc repoPath e : String),
      httpsmart.parseServiceParam svcParam = .ok svc →
      srv.repoPathFromURL (dropSuf urlPath "/info/refs") = .ok repoPath →
      srv.runStatelessRPC stat svc repoPath true = .error e →
      (srv.handleInfoRefs stat "GET" urlPath svcParam).filter httpsmart.isStatusEv
          = [] ∧
        (srv.handleInfoRefs stat "GET" urlPath svcParam).filter httpsmart.isBodyEv
          ≠ [] ∧
        (srv.handleInfoRefs stat "GET" urlPath svcParam).getLast? =
          some (.logLine ("info/refs " ++ repoPath ++ ": " ++ e))) := by
  have hget : ¬("GET" ≠ "GET") := by simp
  refine ⟨?_, ?_, ?_, ?_⟩
  · intro srv stat method urlPath svcParam h
    simp only [httpsmart.Server.handleInfoRefs]
    rw [if_pos h]
  · intro srv stat urlPath svcParam e h
    simp only [httpsmart.Server.handleInfoRefs]
    rw [if_neg hget, h]
  · intro srv stat urlPath svcParam svc e hsvc hrepo
    simp only [httpsmart.Server.handleInfoRefs, hsvc, hrepo, if_neg hget]
  · intro srv stat urlPath svcParam svc repoPath e hsvc hrepo hrpc
    simp only [httpsmart.Server.handleInfoRefs, hsvc, hrepo, hrpc, if_neg hget]
    refine ⟨by simp [httpsmart.isStatusEv], by simp [httpsmart.isBodyEv], by simp⟩

/-- Witness for C2 amended at concrete requests on all four paths. -/
theorem C2_prestream_errors_witness :
    httpsmart.Server.handleInfoRefs ⟨"/srv/repos", "", ""⟩ (fun _ => true)
        "POST" "/x/info/refs" "git-upload-pack" =
      [.status 405 "method not allowed"] ∧
    httpsmart.Server.handleInfoRefs ⟨"/srv/repos", "", ""⟩ (fun _ => true)
        "GET" "/x/info/refs" "evil" =
      [.status 400 "unsupported service \"evil\""] ∧
    httpsmart.Server.handleInfoRefs ⟨"/srv/repos", "", ""⟩ (fun _ => true)
        "GET" "//info/refs" "git-upload-pack" =
      [.status 400 "invalid repository path"] ∧
    (httpsmart.Server.handleInfoRefs ⟨"/srv/repos", "", ""⟩ (fun _ => true)
        "GET" "/../../etc/passwd/info/refs" "git-upload-pack").getLast? =
      some (.logLine "info/refs /../../etc/passwd: invalid path traversal") :=
  ⟨C2_prestream_errors.1 ⟨"/srv/repos", "", ""⟩ (fun _ => true) "POST" "/x/info/refs"
     "git-upload-pack" (by decide),
   C2_prestream_errors.2.1 ⟨"/srv/repos", "", ""⟩ (fun _ => true) "/x/info/refs" "evil"
     "unsupported service \"evil\"" (by decide),
   C2_prestream_errors.2.2.1 ⟨"/srv/repos", "", ""⟩ (fun _ => true) "//info/refs"
     "git-upload-pack" "git-upload-pack" "invalid repository path" (by decide) (by decide),
   (C2_prestream_errors.2.2.2 ⟨"/srv/repos", "", ""⟩ (fun _ => true)
     "/../../etc/passwd/info/refs" "git-upload-pack" "git-upload-pack"
     "/../../etc/passwd" "invalid path traversal" (by decide) (by decide)
     (by decide)).2.2⟩

/-- A successful stateless-RPC invocation in advertise mode carries
exactly the `--stateless-rpc --advertise-refs <repoFull>` arguments. -/
theorem runStatelessRPC_ok_args (s : httpsmart.Server) (stat : String → Bool)
    (svc repoPath binary : String) (args : List String)
    (h : s.runStatelessRPC stat svc repoPath true = .ok (binary, args)) :
    args = ["--stateless-rpc", "--advertise-refs",
      filepathJoin s.RepoRoot (filepathFromSlash (dropPre repoPath "/"))] := by
  simp only [httpsmart.Server.runStatelessRPC] at h
  by_cases hsupp : service.serviceIsSupported svc = false
  · rw [if_pos hsupp] at h
    simp at h
  · rw [if_neg hsupp] at h
    rcases hw : httpsmart.ensureWithinRoot s.RepoRoot
        (filepathJoin s.RepoRoot (filepathFromSlash (dropPre repoPath "/"))) with e2 | u
    · rw [hw] at h
      simp at h
    · rw [hw] at h
      by_cases hs : stat (filepathJoin s.RepoRoot
          (filepathFromSlash (dropPre repoPath "/"))) = false
      · rw [if_pos hs] at h
        simp at h
      · rw [if_neg hs] at h
        simp only [Except.ok.injEq, Prod.mk.injEq] at h
        simp [← h.2]

/-- C7: on a GET info/refs request with a supported service whose path
passes validation and whose stateless-RPC invocation is reached, the
handler writes the advertisement content type, then a pkt-line whose
4-hex-digit prefix is the byte length of `# service=<svc>\n` plus 4,
then the header line itself, then the `0000` flush marker, and only then
invokes the executor with `--stateless-rpc`, `--advertise-refs` and the
confined repository path, with no stdin. -/
theorem C7_advertisement_preamble (srv : httpsmart.Server) (stat : String → Bool)
    (urlPath svcParam svc repoPath binary : String) (args : List String)
    (hsvc : httpsmart.parseServiceParam svcParam = .ok svc)
    (hrepo : srv.repoPathFromURL (dropSuf urlPath "/info/refs") = .ok repoPath)
    (hrpc : srv.runStatelessRPC stat svc repoPath true = .ok (binary, args)) :
    srv.handleInfoRefs stat "GET" urlPath svcParam =
      [.header "Content-Type" ("application/x-" ++ svc ++ "-advertisement"),
       .header "Cache-Control" "no-cache",
       .body (httpsmart.toHex4 (("# service=" ++ svc ++ "\n").utf8ByteSize + 4) ++
         ("# service=" ++ svc ++ "\n")),
       .body "0000", .flush,
       .execCmd binary args false] ∧
    args = ["--stateless-rpc", "--advertise-refs",
      filepathJoin srv.RepoRoot (filepathFromSlash (dropPre repoPath "/"))] := by
  have hget : ¬("GET" ≠ "GET") := by simp
  have hargs := runStatelessRPC_ok_args srv stat svc repoPath binary args hrpc
  refine ⟨?_, hargs⟩
  simp only [httpsmart.Server.handleInfoRefs, hsvc, hrepo, hrpc, if_neg hget]
  simp [service.serviceCommand]

/-- Witness for C7 at a concrete accepted request. -/
theorem C7_advertisement_preamble_witness :
    httpsmart.Server.handleInfoRefs ⟨"/srv/repos", "", ""⟩ (fun _ => true)
        "GET" "/owner/repo.git/info/refs" "git-upload-pack" =
      [.header "Content-Type" ("application/x-" ++ "git-upload-pack" ++ "-advertisement"),
       .header "Cache-Control" "no-cache",
       .body (httpsmart.toHex4 (("# service=" ++ "git-upload-pack" ++ "\n").utf8ByteSize
           + 4) ++ ("# service=" ++ "git-upload-pack" ++ "\n")),
       .body "0000", .flush,
       .execCmd "git-upload-pack"
         ["--stateless-rpc", "--advertise-refs", "/srv/repos/owner/repo.git"] false] ∧
    ["--stateless-rpc", "--advertise-refs", "/srv/repos/owner/repo.git"] =
      ["--stateless-rpc", "--advertise-refs",
        filepathJoin "/srv/repos" (filepathFromSlash (dropPre "/owner/repo.git" "/"))] :=
  C7_advertisement_preamble ⟨"/srv/repos", "", ""⟩ (fun _ => true)
    "/owner/repo.git/info/refs" "git-upload-pack" "git-upload-pack" "/owner/repo.git"
    "git-upload-pack" ["--stateless-rpc", "--advertise-refs", "/srv/repos/owner/repo.git"]
    (by decide) (by decide) (by decide)

/-- Once the waiter is blocked in `cond.Wait`, a sequence of context
expiries alone (no `add`, hence no broadcast) leaves it blocked. -/
theorem waitRun_expire_stuck (evs : List ssh.DrainEvent)
    (h : ∀ ev ∈ evs, ev = ssh.DrainEvent.expire) (st : ssh.DrainState)
    (hw : st.waiter = ssh.WaiterPhase.inWait) :
    (ssh.waitRun st evs).waiter = ssh.WaiterPhase.inWait := by
  induction evs generalizing st with
  | nil => exact hw
  | cons ev rest ih =>
    have hev : ev = ssh.DrainEvent.expire := h ev (by simp)
    subst hev
    exact ih (fun e he => h e (by simp [he])) _ hw

/-- The expired flag is never reset by later events. -/
theorem waitRun_expired_mono (evs : List ssh.DrainEvent) (st : ssh.DrainState)
    (h : st.expired = true) : (ssh.waitRun st evs).expired = true := by
  induction evs generalizing st with
  | nil => exact h
  | cons ev rest ih =>
    apply ih
    cases ev with
    | add d => cases hw : st.waiter <;> simp [ssh.drainStep, hw, h]
    | expire => simp [ssh.drainStep]

/-- C3: `sessionCounter.wait` does return when the count is already zero,
when the deadline has already expired, or when a final `add` brings the
count to zero — but if it blocks with a session still active and no
session ever ends, no broadcast occurs and it stays blocked in
`cond.Wait` forever, even after its deadline expires: the drain can block
past the deadline, refuting "it always returns by that deadline". -/
theorem C3_wait_can_block_past_deadline :
    (∀ expired : Bool, (ssh.waitEnter 0 expired).waiter = .returned) ∧
    (ssh.waitEnter 1 true).waiter = .returned ∧
    (ssh.drainStep (ssh.waitEnter 1 false) (.add (-1))).waiter = .returned ∧
    (∀ evs : List ssh.DrainEvent, (∀ ev ∈ evs, ev = ssh.DrainEvent.expire) →
      (ssh.waitRun (ssh.waitEnter 1 false)
          (ssh.DrainEvent.expire :: evs)).waiter = ssh.WaiterPhase.inWait ∧
        (ssh.waitRun (ssh.waitEnter 1 false)
          (ssh.DrainEvent.expire :: evs)).expired = true) := by
  refine ⟨fun expired => by cases expired <;> decide, by decide, by decide, ?_⟩
  intro evs h
  constructor
  · exact waitRun_expire_stuck (ssh.DrainEvent.expire :: evs)
      (by
        intro ev hev
        rcases List.mem_cons.mp hev with rfl | hev2
        · rfl
        · exact h ev hev2)
      (ssh.waitEnter 1 false) rfl
  · show (ssh.waitRun (ssh.drainStep (ssh.waitEnter 1 false) .expire) evs).expired = true
    exact waitRun_expired_mono evs _ rfl

/-- Witness for C3: after the deadline expires and no session ends, the
waiter is still blocked. -/
theorem C3_wait_can_block_past_deadline_witness :
    (ssh.waitRun (ssh.waitEnter 1 false)
        (ssh.DrainEvent.expire :: [ssh.DrainEvent.expire])).waiter =
      ssh.WaiterPhase.inWait ∧
    (ssh.waitRun (ssh.waitEnter 1 false)
        (ssh.DrainEvent.expire :: [ssh.DrainEvent.expire])).expired = true :=
  C3_wait_can_block_past_deadline.2.2.2 [ssh.DrainEvent.expire] (by decide)

/-! ### Session counting -/

/-- The counter deltas attributed to session `i` in a global trace of
(session id, delta) events. -/
def deltasOf (t : List (Nat × Int)) (i : Nat) : List Int :=
  (t.filter (fun e => e.1 == i)).map Prod.snd

/-- A global trace is session-consistent for `n` sessions when every
event belongs to one of the `n` sessions and each session's deltas so
far are a prefix of `[+1, -1]` — the exact shape `wrapSessionCount`
produces per session. -/
def sessionConsistentB (n : Nat) (t : List (Nat × Int)) : Bool :=
  t.all (fun e => decide (e.1 < n)) &&
    (List.range n).all (fun i => (deltasOf t i).isPrefixOf [1, -1])

/-- The sum of a trace's deltas decomposes as the sum over sessions. -/
theorem trace_sum_decompose (n : Nat) (t : List (Nat × Int))
    (hid : ∀ e ∈ t, e.1 < n) :
    (t.map Prod.snd).sum = ∑ i in Finset.range n, (deltasOf t i).sum := by
  induction t with
  | nil => simp [deltasOf]
  | cons e rest ih =>
    have he : e.1 < n := hid e (by simp)
    have ihr := ih (fun x hx => hid x (by simp [hx]))
    have hsplit : ∀ i, (deltasOf (e :: rest) i).sum =
        (if i = e.1 then e.2 else 0) + (deltasOf rest i).sum := by
      intro i
      by_cases hie : e.1 = i
      · simp [deltasOf, List.filter_cons, hie]
      · have : ¬(i = e.1) := fun hc => hie hc.symm
        simp [deltasOf, List.filter_cons, hie, this]
    simp only [List.map_cons, List.sum_cons, ihr]
    rw [Finset.sum_congr rfl (fun i _ => hsplit i), Finset.sum_add_distrib,
      Finset.sum_ite_eq' (Finset.range n) e.1 (fun _ => e.2)]
    simp [Finset.mem_range.mpr he]

/-- The prefixes of `[1, -1]`. -/
theorem prefix_of_pair {l : List Int} (h : l <+: [1, -1]) :
    l = [] ∨ l = [1] ∨ l = [1, -1] := by
  obtain ⟨t, ht⟩ := h
  cases l with
  | nil => exact Or.inl rfl
  | cons a l2 =>
    cases l2 with
    | nil =>
      simp only [List.cons_append, List.nil_append, List.cons.injEq] at ht
      exact Or.inr (Or.inl (by rw [ht.1]))
    | cons b l3 =>
      cases l3 with
      | nil =>
        simp only [List.cons_append, List.nil_append, List.cons.injEq] at ht
        obtain ⟨ha, hb, _⟩ := ht
        exact Or.inr (Or.inr (by rw [ha, hb]))
      | cons c l4 =>
        simp only [List.cons_append, List.cons.injEq] at ht
        obtain ⟨_, _, h3⟩ := ht
        exact absurd h3 (by simp)

/-- A prefix of `[1, -1]` has non-negative sum. -/
theorem prefix_pair_sum_nonneg {l : List Int} (h : l <+: [1, -1]) : 0 ≤ l.sum := by
  rcases prefix_of_pair h with rfl | rfl | rfl <;> decide

/-- Any session-consistent trace has a non-negative delta sum: the
counter never goes negative. -/
theorem consistent_sum_nonneg (n : Nat) (t : List (Nat × Int))
    (h : sessionConsistentB n t = true) : 0 ≤ (t.map Prod.snd).sum := by
  unfold sessionConsistentB at h
  rw [Bool.and_eq_true] at h
  obtain ⟨h1, h2⟩ := h
  rw [List.all_eq_true] at h1 h2
  have hid : ∀ e ∈ t, e.1 < n := fun e he => of_decide_eq_true (h1 e he)
  rw [trace_sum_decompose n t hid]
  apply Finset.sum_nonneg
  intro i hi
  have hp := h2 i (by simpa using hi)
  rw [List.isPrefixOf_iff_prefix] at hp
  exact prefix_pair_sum_nonneg hp

/-- A session-consistent trace with no session left open (none whose
deltas so far are exactly `[1]`) has delta sum zero: after the sessions
complete, the counter's net change is zero. -/
theorem consistent_completed_sum_zero (n : Nat) (t : List (Nat × Int))
    (h : sessionConsistentB n t = true)
    (hcl : ((List.range n).all fun i => deltasOf t i != [1]) = true) :
    (t.map Prod.snd).sum = 0 := by
  unfold sessionConsistentB at h
  rw [Bool.and_eq_true] at h
  obtain ⟨h1, h2⟩ := h
  rw [List.all_eq_true] at h1 h2 hcl
  have hid : ∀ e ∈ t, e.1 < n := fun e he => of_decide_eq_true (h1 e he)
  rw [trace_sum_decompose n t hid]
  apply Finset.sum_eq_zero
  intro i hi
  have hp := h2 i (by simpa using hi)
  rw [List.isPrefixOf_iff_prefix] at hp
  have hne : deltasOf t i ≠ [1] := by
    have := hcl i (by simpa using hi)
    exact bne_iff_ne.mp this
  rcases prefix_of_pair hp with hl | hl | hl
  · rw [hl]; rfl
  · exact absurd hl hne
  · rw [hl]; rfl

/-- The SSH session handler performs no counter operations on any of its
exit paths; `wrapSessionCount` alone touches the counter. -/
theorem handleSession_no_counter (srv : ssh.Server) (stat : String → Bool)
    (runOk : Bool) (osEnv : List String) (sess : ssh.Session) :
    ssh.counterDeltas (ssh.Server.handleSession srv stat runOk osEnv sess) = [] := by
  cases h1 : service.ParseSSHCommand sess.rawCmd with
  | error e => simp [ssh.Server.handleSession, h1, ssh.counterDeltas]
  | ok req =>
    cases h2 : srv.resolveRepoPath req.RepoPath with
    | error e => simp [ssh.Server.handleSession, h1, h2, ssh.counterDeltas]
    | ok repoFull =>
      by_cases hs : stat repoFull = false
      · simp [ssh.Server.handleSession, h1, h2, hs, ssh.counterDeltas]
      · cases h3 : service.ServiceExecutor.Serve
            ⟨srv.UploadPackPath, srv.ReceivePackPath, srv.BaseEnv, ""⟩ osEnv
            ⟨req.Service, repoFull, ssh.gitProtocolEnv sess.environ⟩ with
        | error e => simp [ssh.Server.handleSession, h1, h2, hs, h3, ssh.counterDeltas]
        | ok cmd =>
          cases runOk <;>
            simp [ssh.Server.handleSession, h1, h2, hs, h3, ssh.counterDeltas]

/-- C9: every SSH session increments the drain counter exactly once on
entry and decrements exactly once on exit, whatever exit path the
handler takes; hence each completed session's net effect is zero, and no
interleaving of sessions each contributing a prefix of `[+1, -1]` can
drive the counter negative. -/
theorem C9_session_counter :
    (∀ (srv : ssh.Server) (stat : String → Bool) (runOk : Bool)
        (osEnv : List String) (sess : ssh.Session),
      ssh.counterDeltas
          (ssh.wrapSessionCount (ssh.Server.handleSession srv stat runOk osEnv) sess) =
        [1, -1]) ∧
    (∀ (n : Nat) (t : List (Nat × Int)), sessionConsistentB n t = true →
      0 ≤ (t.map Prod.snd).sum) ∧
    (∀ (n : Nat) (t : List (Nat × Int)), sessionConsistentB n t = true →
      ((List.range n).all fun i => deltasOf t i != [1]) = true →
      (t.map Prod.snd).sum = 0) := by
  refine ⟨?_, consistent_sum_nonneg, consistent_completed_sum_zero⟩
  intro srv stat runOk osEnv sess
  have hb := handleSession_no_counter srv stat runOk osEnv sess
  unfold ssh.counterDeltas at hb ⊢
  unfold ssh.wrapSessionCount
  simp [List.filterMap_append, List.filterMap_cons, hb]

/-- Witness for C9 at a concrete session and a concrete two-session
interleaved trace. -/
theorem C9_session_counter_witness :
    ssh.counterDeltas (ssh.wrapSessionCount
        (ssh.Server.handleSession ⟨"", "/srv/repos", "", "", "", "", [], 0⟩
          (fun _ => true) true []) ⟨"git-upload-pack '/owner/repo.git'", []⟩) =
      [1, -1] ∧
    0 ≤ (([(0, 1), (1, 1), (0, -1)] : List (Nat × Int)).map Prod.snd).sum ∧
    (([(0, 1), (1, 1), (0, -1), (1, -1)] : List (Nat × Int)).map Prod.snd).sum = 0 :=
  ⟨C9_session_counter.1 ⟨"", "/srv/repos", "", "", "", "", [], 0⟩ (fun _ => true) true []
     ⟨"git-upload-pack '/owner/repo.git'", []⟩,
   C9_session_counter.2.1 2 [(0, 1), (1, 1), (0, -1)] (by decide),
   C9_session_counter.2.2 2 [(0, 1), (1, 1), (0, -1), (1, -1)] (by decide) (by decide)⟩

/-! ### Endpoint parsing -/

/-- `containsChar` is membership. -/
theorem containsChar_iff_mem (c : Char) :
    ∀ l : List Char, containsChar c l = true ↔ c ∈ l := by
  intro l
  induction l with
  | nil => simp [containsChar]
  | cons a rest ih =>
    simp only [containsChar, Bool.or_eq_true, beq_iff_eq, ih, List.mem_cons]
    constructor
    · rintro (rfl | h)
      · exact Or.inl rfl
      · exact Or.inr h
    · rintro (rfl | h)
      · exact Or.inl rfl
      · exact Or.inr h

/-- A successful `cutCharList` splits at the first occurrence: the input
recomposes around the separator and the left part is separator-free. -/
theorem cutCharList_eq_some (c : Char) : ∀ (l pre post : List Char),
    cutCharList c l = some (pre, post) → l = pre ++ c :: post ∧ c ∉ pre := by
  intro l
  induction l with
  | nil => intro pre post h; simp [cutCharList] at h
  | cons a rest ih =>
    intro pre post h
    by_cases hac : a = c
    · have hcc : cutCharList c (a :: rest) = some ([], rest) := by
        simp [cutCharList, hac]
      rw [hcc] at h
      injection h with h'
      injection h' with hpre hpost
      subst hpre
      subst hpost
      exact ⟨by simp [hac], by simp⟩
    · simp only [cutCharList, if_neg hac] at h
      cases hrec : cutCharList c rest with
      | none => rw [hrec] at h; cases h
      | some pr =>
        obtain ⟨l1, r1⟩ := pr
        rw [hrec] at h
        simp only [Option.some.injEq, Prod.mk.injEq] at h
        obtain ⟨h1, h2⟩ := h
        obtain ⟨ihl, ihn⟩ := ih l1 r1 hrec
        subst h1
        subst h2
        constructor
        · rw [ihl]; rfl
        · intro hm
          rcases List.mem_cons.mp hm with hca | hcl
          · exact hac hca.symm
          · exact ihn hcl

/-- `cutCharList` succeeds whenever the separator occurs. -/
theorem cutCharList_of_contains (c : Char) : ∀ l : List Char,
    containsChar c l = true → ∃ pre post, cutCharList c l = some (pre, post) := by
  intro l
  induction l with
  | nil => intro h; simp [containsChar] at h
  | cons a rest ih =>
    intro h
    by_cases hac : a = c
    · exact ⟨[], rest, by simp [cutCharList, hac]⟩
    · simp only [containsChar, Bool.or_eq_true, beq_iff_eq] at h
      rcases h with h | h
      · exact absurd h hac
      · obtain ⟨p1, p2, hp⟩ := ih h
        exact ⟨a :: p1, p2, by simp [cutCharList, hac, hp]⟩

/-- The result of `ensureLeadingSlash` always begins with `/`. -/
theorem ensureLeadingSlash_has_slash (p : String) :
    goHasPre (service.ensureLeadingSlash p) "/" = true := by
  unfold service.ensureLeadingSlash
  by_cases h0 : p = ""
  · rw [if_pos h0]; decide
  · rw [if_neg h0]
    by_cases h1 : goHasPre p "/" = false
    · rw [if_pos h1]
      unfold goHasPre
      rw [String.data_append]
      rw [show ("/" : String).data = ['/'] from rfl]
      simp [List.isPrefixOf]
    · rw [if_neg h1]
      cases h : goHasPre p "/"
      · exact absurd h h1
      · rfl

/-- `splitUserHost` splits at the first `@` when one occurs (user is
`@`-free) and returns an empty user otherwise. -/
theorem splitUserHost_spec (s : String) :
    (goContainsChar s '@' = true →
      (service.splitUserHost s).1.data ++ '@' :: (service.splitUserHost s).2.data =
          s.data ∧
        containsChar '@' (service.splitUserHost s).1.data = false) ∧
    (goContainsChar s '@' = false →
      (service.splitUserHost s).1 = "" ∧ (service.splitUserHost s).2 = s) := by
  constructor
  · intro h
    obtain ⟨pre, post, hp⟩ := cutCharList_of_contains '@' s.data h
    obtain ⟨hl, hn⟩ := cutCharList_eq_some '@' s.data pre post hp
    unfold service.splitUserHost
    rw [if_pos h, hp]
    constructor
    · exact hl.symm
    · cases hb : containsChar '@' pre
      · rfl
      · exact absurd ((containsChar_iff_mem '@' pre).mp hb) hn
  · intro h
    unfold service.splitUserHost
    rw [if_neg (by rw [h]; simp)]
    exact ⟨rfl, rfl⟩

/-- C6: every endpoint string without `://` but containing `:` is parsed
as scp-like ssh transport: it is cut at the first `:` (the part before
it is colon-free), the left side is split at the first `@` into user and
host (user empty and host the whole left side when there is no `@`), and
the returned path is the right side forced to begin with `/`. -/
theorem C6_scp_like_parsing (urlBranch : String → Except String service.Endpoint)
    (raw : String)
    (h1 : goContainsSub raw "://" = false)
    (h2 : goContainsChar raw ':' = true) :
    ∃ userHost repoPath : List Char,
      cutCharList ':' raw.data = some (userHost, repoPath) ∧
      raw.data = userHost ++ ':' :: repoPath ∧
      containsChar ':' userHost = false ∧
      service.ParseEndpoint urlBranch raw =
        .ok { Transport := service.TransportSSH,
              User := (service.splitUserHost (String.mk userHost)).1,
              Host := (service.splitUserHost (String.mk userHost)).2,
              Port := "",
              Path := service.ensureLeadingSlash (String.mk repoPath) } ∧
      goHasPre (service.ensureLeadingSlash (String.mk repoPath)) "/" = true ∧
      (goContainsChar (String.mk userHost) '@' = true →
        (service.splitUserHost (String.mk userHost)).1.data ++
            '@' :: (service.splitUserHost (String.mk userHost)).2.data = userHost ∧
          containsChar '@' (service.splitUserHost (String.mk userHost)).1.data = false) ∧
      (goContainsChar (String.mk userHost) '@' = false →
        (service.splitUserHost (String.mk userHost)).1 = "" ∧
          (service.splitUserHost (String.mk userHost)).2 = String.mk userHost) := by
  have hne : raw ≠ "" := by
    intro hraw
    rw [hraw] at h2
    exact absurd h2 (by decide)
  obtain ⟨pre, post, hp⟩ := cutCharList_of_contains ':' raw.data h2
  obtain ⟨hl, hn⟩ := cutCharList_eq_some ':' raw.data pre post hp
  refine ⟨pre, post, hp, hl, ?_, ?_, ensureLeadingSlash_has_slash _,
    (splitUserHost_spec (String.mk pre)).1, (splitUserHost_spec (String.mk pre)).2⟩
  · cases hb : containsChar ':' pre
    · rfl
    · exact absurd ((containsChar_iff_mem ':' pre).mp hb) hn
  · unfold service.ParseEndpoint
    rw [if_neg hne,
      if_neg (fun hc => by rw [h2] at hc; exact absurd hc.2.2 (by simp)),
      if_pos ⟨h1, h2⟩, hp]

/-- Witness for C6 at `git@example.com:repo/project.git`. -/
theorem C6_scp_like_parsing_witness :
    ∃ userHost repoPath : List Char,
      cutCharList ':' ("git@example.com:repo/project.git" : String).data =
          some (userHost, repoPath) ∧
      ("git@example.com:repo/project.git" : String).data =
          userHost ++ ':' :: repoPath ∧
      containsChar ':' userHost = false ∧
      service.ParseEndpoint (fun _ => .error "url") "git@example.com:repo/project.git" =
        .ok { Transport := service.TransportSSH,
              User := (service.splitUserHost (String.mk userHost)).1,
              Host := (service.splitUserHost (String.mk userHost)).2,
              Port := "",
              Path := service.ensureLeadingSlash (String.mk repoPath) } ∧
      goHasPre (service.ensureLeadingSlash (String.mk repoPath)) "/" = true ∧
      (goContainsChar (String.mk userHost) '@' = true →
        (service.splitUserHost (String.mk userHost)).1.data ++
            '@' :: (service.splitUserHost (String.mk userHost)).2.data = userHost ∧
          containsChar '@' (service.splitUserHost (String.mk userHost)).1.data = false) ∧
      (goContainsChar (String.mk userHost) '@' = false →
        (service.splitUserHost (String.mk userHost)).1 = "" ∧
          (service.splitUserHost (String.mk userHost)).2 = String.mk userHost) :=
  C6_scp_like_parsing (fun _ => .error "url") "git@example.com:repo/project.git"
    (by decide) (by decide)

example : filepathClean "" = "." := by decide
example : filepathClean "/" = "/" := by decide
example : filepathClean "/srv/repos/../../etc/passwd" = "/etc/passwd" := by decide
example : filepathClean "a/b/../../../c" = "../c" := by decide
example : filepathClean "./a//b/." = "a/b" := by decide
example : filepathClean "/.." = "/" := by decide
example : filepathJoin "/srv/repos" "owner/repo.git" = "/srv/repos/owner/repo.git" := by decide
example : filepathJoin "/srv/repos" "../../etc/passwd" = "/etc/passwd" := by decide
example : goFields "  git-upload-pack   '/a/b.git'  " = ["git-upload-pack", "'/a/b.git'"] := by decide
example : goTrimSpace "  x y " = "x y" := by decide
example : dropPre "/a/b" "/" = "a/b" := by decide
example : dropSuf "/x/info/refs" "/info/refs" = "/x" := by decide
